import Mathlib

/-!
Shallow embedding of the primality-testing core of the `prime_number`
repository (`src/prime_checker/utils.py` and
`src/prime_checker/cpu_algorithms.py`), together with theorems settling the
frozen claims about it.

Conventions of the embedding:
* Python unbounded integers are `ℤ` (or `ℕ` where the code path guarantees
  non-negative values); Python `//` and `%` on `ℤ` are `Int.fdiv` and
  `Int.fmod` (floor division and floor modulus, exactly Python's semantics);
  on `ℕ` they are `Nat.div` / `Nat.mod`, which agree with Python on
  non-negative operands.
* `while` loops are written as fuel-indexed structural recursions; every
  wrapper supplies fuel that strictly exceeds the number of iterations the
  loop can perform, so the fuel-exhaustion branch is unreachable and the
  function computes exactly what the Python loop computes.
* The random source (`random.randrange`, `random.getrandbits`) is made
  explicit as a stream `w : ℕ → ℕ` of the successive values it returns.
* External gmpy2 capabilities (`powmod`, `jacobi`, `is_prime`) are modelled
  by executable Lean functions; see the doc comments on each.
-/

set_option maxRecDepth 4000

namespace PrimeNumber

/-- Fuel-indexed binary modular exponentiation; executable model of the
external capability `gmpy2.powmod` used by `mod_exp` in
`src/prime_checker/utils.py`.  `powmod_aux f b e m` computes `b ^ e % m`
whenever `e < 2 ^ f` (proved in `powmod_aux_eq`). -/
def powmod_aux : ℕ → ℕ → ℕ → ℕ → ℕ
  | 0, _, _, m => 1 % m
  | f + 1, b, e, m =>
    if e = 0 then 1 % m
    else
      let r := powmod_aux f (b * b % m) (e / 2) m
      if e % 2 = 1 then b % m * r % m else r

/-- Translation of `mod_exp(base, exp, mod)` from `src/prime_checker/utils.py`:
fast modular exponentiation (`gmpy2.powmod`), i.e. `base ^ exp % mod`. -/
def mod_exp (b e m : ℕ) : ℕ := powmod_aux (e + 1) b e m

/-- The loop of `decompose_n_minus_1` from `src/prime_checker/utils.py`:
`while d % 2 == 0: d //= 2; s += 1`, returning `(s, d)`.  The first argument
is fuel (the loop halves `d`, so any fuel `≥ d ≥ 1` suffices); the `d ≠ 0`
conjunct only rules out the input `d = 0` on which the Python loop would not
terminate — it changes nothing for `d ≥ 1`. -/
def decompose_loop : ℕ → ℕ → ℕ × ℕ
  | 0, d => (0, d)
  | f + 1, d =>
    if d % 2 = 0 ∧ d ≠ 0 then
      let r := decompose_loop f (d / 2)
      (r.1 + 1, r.2)
    else (0, d)

/-- Translation of `decompose_n_minus_1(n)` from `src/prime_checker/utils.py`:
decompose `n - 1` as `2^s * d` with `d` odd, returning `(s, d)`. -/
def decompose_n_minus_1 (n : ℕ) : ℕ × ℕ := decompose_loop (n - 1) (n - 1)

/-- Executable integer square root (largest `k` with `k * k ≤ n`), proved
equal to `Nat.sqrt` in `floor_sqrt_eq_sqrt` below; model of Python's
`int(n**0.5)`, which for the `n < 1000` range where `is_prime_small` uses
it is exactly the integer square root (the doubles involved are correctly
rounded and far from integer boundaries). -/
def floor_sqrt (n : ℕ) : ℕ :=
  ((List.range (n + 1)).filter (fun k => decide (k * k ≤ n))).length - 1

/-- The trial-division loop of `is_prime_small` for `n < 1000`:
`for i in range(3, int(n**0.5) + 1, 2): if n % i == 0: return False`.
`range(3, isqrt n + 1, 2)` has `(isqrt n - 1) / 2` elements `3, 5, …`. -/
def trial_division_odd (n : ℕ) : Bool :=
  (List.range' 3 ((floor_sqrt n - 1) / 2) 2).all (fun i => n % i != 0)

/-- Translation of `is_prime_small(n)` from `src/prime_checker/utils.py`: primality check
for small numbers `< 2^64`.  The `n ≥ 1000` branch delegates to
`gmpy2.is_prime`; per the spec (§4.2: a "library-backed deterministic test")
that external capability is modelled as actual primality. -/
def is_prime_small (n : ℕ) : Bool :=
  if n < 2 then false
  else if n = 2 then true
  else if n % 2 = 0 then false
  else if n < 1000 then trial_division_odd n
  else decide (Nat.Prime n)

/-- Fuel-indexed core of the binary Jacobi-symbol algorithm: `jacobi_loop f
a n` computes the Jacobi symbol `(a | n)` for odd `n ≥ 1` and `0 ≤ a < n`,
provided `f > a` (the recursion strictly decreases `a`).  Factors of two are
split off with `decompose_loop`; `(2 | n) = -1` iff `n ≡ ±3 (mod 8)`, and
quadratic reciprocity flips the sign iff both odd parts are `≡ 3 (mod 4)`. -/
def jacobi_loop : ℕ → ℕ → ℕ → ℤ
  | 0, _, _ => 0
  | f + 1, a, n =>
    if a = 0 then (if n = 1 then 1 else 0)
    else
      let t := decompose_loop a a
      let s1 : ℤ := if t.1 % 2 = 1 ∧ (n % 8 = 3 ∨ n % 8 = 5) then -1 else 1
      let s2 : ℤ := if t.2 % 4 = 3 ∧ n % 4 = 3 then -1 else 1
      s1 * s2 * jacobi_loop f (n % t.2) t.2

/-- Translation of `jacobi_symbol(a, n)` from `src/prime_checker/utils.py`: executable
model of the external capability `gmpy2.jacobi` (the mathematical Jacobi
symbol, defined for odd positive `n` and any integer `a`, periodic in `a`
modulo `n`).  The argument is first reduced to `a mod n ∈ [0, n)`. -/
def jacobi_symbol (a n : ℤ) : ℤ :=
  jacobi_loop ((a.fmod n).toNat + 1) (a.fmod n).toNat n.toNat

/-- The squaring loop of `MillerRabin._witness_test`
(`src/prime_checker/cpu_algorithms.py`): `for _ in range(int(s) - 1):
x = mod_exp(x, 2, n); if x == n - 1: return True; if x == 1: return False`,
falling through to `False`.  Second argument is the current `x`, third the
remaining iteration count (the Python `x` variable is written out instead of
being rebound, which changes nothing). -/
def witness_loop (n : ℕ) : ℕ → ℕ → Bool
  | _, 0 => false
  | x, k + 1 =>
    if mod_exp x 2 n = n - 1 then true
    else if mod_exp x 2 n = 1 then false
    else witness_loop n (mod_exp x 2 n) k

/-- Translation of `MillerRabin._witness_test(a, n, s, d)` from
`src/prime_checker/cpu_algorithms.py`: returns `True` when base `a` does
not prove `n` composite (`x = mod_exp(a, d, n)` is written out instead of
being bound to a local). -/
def witness_test (a n s d : ℕ) : Bool :=
  if mod_exp a d n = 1 ∨ mod_exp a d n = n - 1 then true
  else witness_loop n (mod_exp a d n) (s - 1)

/-- The witness loop of `MillerRabin.test`: `for a in witnesses: if not
self._witness_test(a, n, s, d): return False` then `return True`. -/
def mr_witness_pass (ws : List ℕ) (n s d : ℕ) : Bool :=
  ws.all (fun a => witness_test a n s d)

/-- The fixed witness list `MillerRabin.deterministic_bases`. -/
def deterministic_bases : List ℕ := [2, 3, 5, 7, 11, 13, 17, 19, 23, 29, 31, 37]

/-- The magnitude bound below which `MillerRabin.test` uses
`deterministic_bases` when `use_deterministic` is set. -/
def deterministic_threshold : ℤ := 3317044064679887385961981

/-- Translation of `MillerRabin(rounds=rounds).test(n, use_deterministic=use_det)`
from `src/prime_checker/cpu_algorithms.py`.  `w` is the stream of values
produced by `random.randrange(2, n - 1)` in the probabilistic branch; the
locals `s, d` of the source are written out as the two projections of
`decompose_n_minus_1`. -/
def miller_rabin_test (rounds : ℕ) (use_det : Bool) (w : ℕ → ℕ) (n : ℤ) : Bool :=
  if n ≤ 1 then false
  else if n ≤ 3 then true
  else if n.fmod 2 = 0 then false
  else if n < 2 ^ 64 then is_prime_small n.toNat
  else
    mr_witness_pass
      (if use_det = true ∧ n < deterministic_threshold
       then deterministic_bases.filter (fun a => a < n.toNat)
       else (List.range rounds).map w)
      n.toNat (decompose_n_minus_1 n.toNat).1 (decompose_n_minus_1 n.toNat).2

/-- Translation of `LucasPrimality._find_D`'s loop (`src/prime_checker/cpu_algorithms.py`):
probe `D = 5, -7, 9, -11, …`; return the first `D` with Jacobi `(D | n) =
-1`; after updating `D`, return `None` once `|D| > n`.  First argument after
`n` is fuel; `|D|` grows by 2 per iteration, so fuel `n.toNat + 2` (supplied
by `find_D`) strictly exceeds the possible number of iterations. -/
def find_D_loop (n : ℤ) : ℕ → ℤ → Option ℤ
  | 0, _ => none
  | f + 1, D =>
    if jacobi_symbol D n = -1 then some D
    else
      let D' := if D > 0 then -D - 2 else -D + 2
      if n < |D'| then none else find_D_loop n f D'

/-- Translation of `LucasPrimality._find_D(n)`: find `D` with `jacobi(D, n) = -1`. -/
def find_D (n : ℤ) : Option ℤ := find_D_loop n (n.toNat + 2) 5

/-- Fuel-indexed list of binary digits of `k`, most significant first:
`bin(k)[2:]` as iterated over by `LucasPrimality._lucas_sequence_test`.
Any fuel `≥ k ≥ 1` suffices. -/
def nat_bits_aux : ℕ → ℕ → List Bool
  | 0, _ => []
  | f + 1, k =>
    if k = 0 then [] else nat_bits_aux f (k / 2) ++ [decide (k % 2 = 1)]

/-- Most-significant-first binary digits of `k` (`bin(k)[2:]`, `k ≥ 1`). -/
def nat_bits (k : ℕ) : List Bool := nat_bits_aux k k

/-- The doubling step of the ladder in `_lucas_sequence_test`:
`U = U*V % n; V = (V*V - 2*Qk) % n; Qk = Qk*Qk % n`.  The state is
`(U, V, Qk)`. -/
def lucas_double (n : ℤ) (st : ℤ × ℤ × ℤ) : ℤ × ℤ × ℤ :=
  ((st.1 * st.2.1).fmod n,
   (st.2.1 * st.2.1 - 2 * st.2.2).fmod n,
   (st.2.2 * st.2.2).fmod n)

/-- The set-bit (addition) step of the ladder in `_lucas_sequence_test`:
`U, V = (P*U + V) // 2 % n, (D*U + P*V) // 2 % n; Qk = Qk * Q % n`.
Note the truncating (floor) division `// 2`, exactly as in the source. -/
def lucas_add (n D P Q : ℤ) (st : ℤ × ℤ × ℤ) : ℤ × ℤ × ℤ :=
  (((P * st.1 + st.2.1).fdiv 2).fmod n,
   ((D * st.1 + P * st.2.1).fdiv 2).fmod n,
   (st.2.2 * Q).fmod n)

/-- One iteration of the `for bit in bin(k)[2:]` loop of
`_lucas_sequence_test`: always double, then add when the bit is set. -/
def lucas_step (n D P Q : ℤ) (st : ℤ × ℤ × ℤ) (bit : Bool) : ℤ × ℤ × ℤ :=
  let st2 := lucas_double n st
  if bit then lucas_add n D P Q st2 else st2

/-- Translation of `LucasPrimality._lucas_sequence_test(n, D)` from
`src/prime_checker/cpu_algorithms.py`: `P = 1`, `Q = (1 - D) // 4`, ladder
over the bits of `k = n + 1` from state `(U, V, Qk) = (0, 2, 1)`, reporting
`U == 0` at the end. -/
def lucas_sequence_test (n D : ℤ) : Bool :=
  let P : ℤ := 1
  let Q : ℤ := (1 - D).fdiv 4
  let k := n + 1
  ((nat_bits k.toNat).foldl (lucas_step n D P Q) (0, 2, 1)).1 == 0

/-- Translation of `LucasPrimality.test(n)` from `src/prime_checker/cpu_algorithms.py`. -/
def lucas_test (n : ℤ) : Bool :=
  if n ≤ 1 then false
  else if n = 2 then true
  else if n.fmod 2 = 0 then false
  else
    match find_D n with
    | none => false
    | some D => lucas_sequence_test n D

/-- Translation of `BPSW.test(n)` from `src/prime_checker/cpu_algorithms.py`: quick
checks, then `self.miller_rabin.test(n, use_deterministic=True)` where
`self.miller_rabin = MillerRabin(rounds=1)`, then `self.lucas.test(n)`. -/
def bpsw_test (w : ℕ → ℕ) (n : ℤ) : Bool :=
  if n ≤ 1 then false
  else if n = 2 then true
  else if n.fmod 2 = 0 then false
  else if miller_rabin_test 1 true w n = false then false
  else lucas_test n

/-- The iteration `s = (s * s - 2) % Mp` of `LucasLehmer.test`, run a given
number of times. -/
def lucas_lehmer_loop (Mp : ℤ) : ℕ → ℤ → ℤ
  | 0, s => s
  | k + 1, s => lucas_lehmer_loop Mp k ((s * s - 2).fmod Mp)

/-- Translation of `LucasLehmer.test(p)` from `src/prime_checker/cpu_algorithms.py`
(the progress bar is presentation only and is dropped). -/
def lucas_lehmer_test (p : ℕ) : Bool :=
  if p = 2 then true
  else if is_prime_small p = false then false
  else lucas_lehmer_loop ((2 : ℤ) ^ p - 1) (p - 2) 4 == 0

/-- Fuel-indexed popcount: `int.bit_count` of `(n + 1)` as used by
`is_prime_cpu`'s Mersenne-form check (the value is only consulted when
`n > 3`, so the argument is positive there). -/
def popcount_aux : ℕ → ℕ → ℕ
  | 0, _ => 0
  | f + 1, k => if k = 0 then 0 else k % 2 + popcount_aux f (k / 2)

/-- Python `int.bit_count()` for a natural number. -/
def bit_count (k : ℕ) : ℕ := popcount_aux k k

/-- Fuel-indexed bit length. -/
def bit_length_aux : ℕ → ℕ → ℕ
  | 0, _ => 0
  | f + 1, k => if k = 0 then 0 else bit_length_aux f (k / 2) + 1

/-- Python `int.bit_length()` for a natural number. -/
def bit_length (k : ℕ) : ℕ := bit_length_aux k k

/-- The keyword arguments of `is_prime_cpu` that the algorithms consult
(`show_progress` only affects the progress bar and is dropped). -/
structure Kw where
  rounds : Option ℕ
  p : Option ℕ

/-- The `algorithm == "auto"` resolution block of `is_prime_cpu`
(`src/prime_checker/cpu_algorithms.py`, lines 231-239): for a Mersenne-form
`n` with prime exponent it rewrites the algorithm to `"lucas-lehmer"` and
stores the exponent in the keyword arguments; for non-Mersenne-form `n` it
rewrites to `"bpsw"`; for a Mersenne-form `n` whose exponent fails
`is_prime_small` it leaves `"auto"` in place (no `else` on the inner `if`). -/
def auto_resolve (n : ℤ) (alg : String) (kw : Kw) : String × Kw :=
  if alg = "auto" then
    if 3 < n ∧ bit_count (n + 1).toNat = 1 then
      let p := bit_length (n + 1).toNat - 1
      if is_prime_small p then ("lucas-lehmer", { kw with p := some p })
      else (alg, kw)
    else ("bpsw", kw)
  else (alg, kw)

/-- Translation of `is_prime_cpu(n, algorithm, **kwargs)` from
`src/prime_checker/cpu_algorithms.py`.  A raised `ValueError` is modelled
as `Except.error` carrying the message; the mutation of `algorithm` and
`kwargs` by the `auto` block is expressed by applying `auto_resolve`
first. -/
def is_prime_cpu (w : ℕ → ℕ) (alg : String) (kw : Kw) (n : ℤ) : Except String Bool :=
  if (auto_resolve n alg kw).1 = "miller-rabin" then
    Except.ok (miller_rabin_test ((auto_resolve n alg kw).2.rounds.getD 20) false w n)
  else if (auto_resolve n alg kw).1 = "lucas-lehmer" then
    match (auto_resolve n alg kw).2.p with
    | none => Except.error ("Lucas-Lehmer requires exponent p for testing 2^p - 1")
    | some p => Except.ok (lucas_lehmer_test p)
  else if (auto_resolve n alg kw).1 = "bpsw" then
    Except.ok (bpsw_test w n)
  else
    Except.error ("Unknown algorithm: " ++ (auto_resolve n alg kw).1)

/-- Whether an `is_prime_cpu` call raised. -/
def is_error : Except String Bool → Bool
  | Except.error _ => true
  | Except.ok _ => false

/-- Translation of `is_probably_prime(n, k)` from `src/prime_checker/utils.py`: model of
the external capability `gmpy2.is_prime(n, k)` (a primality test; the
repetition count `k` only tunes its error probability, which the model,
being exact, ignores). -/
def is_probably_prime (n : ℕ) (_k : ℕ) : Bool := decide (Nat.Prime n)

/-- The loop of `generate_random_probable_prime(bits)` from
`src/prime_checker/utils.py`: `n = 2**(bits-1) + random.getrandbits(bits-1);
if n % 2 == 0: n += 1; if is_probably_prime(n, 5): return n`, repeated.
`w i` is the value of the `i`-th `getrandbits(bits - 1)` draw; the first
argument is fuel (the Python loop has no iteration bound, so the embedding
returns `none` when the supplied fuel runs out first). -/
def generate_loop (w : ℕ → ℕ) (bits : ℕ) : ℕ → ℕ → Option ℕ
  | 0, _ => none
  | f + 1, i =>
    let c := 2 ^ (bits - 1) + w i
    let c2 := if c % 2 = 0 then c + 1 else c
    if is_probably_prime c2 5 then some c2 else generate_loop w bits f (i + 1)

/-- Translation of `generate_random_probable_prime(bits)` (with explicit
random stream and fuel). -/
def generate_random_probable_prime (w : ℕ → ℕ) (bits fuel : ℕ) : Option ℕ :=
  generate_loop w bits fuel 0

/-- The Lucas sequence `U_k(P, Q)` itself (`U_0 = 0`, `U_1 = 1`,
`U_{k+2} = P·U_{k+1} - Q·U_k`); stated from the spec's description of what
the ladder is supposed to compute, for comparison with the code's ladder. -/
def lucas_U (P Q : ℤ) : ℕ → ℤ
  | 0 => 0
  | 1 => 1
  | k + 2 => P * lucas_U P Q (k + 1) - Q * lucas_U P Q k

/-- The strong-probable-prime condition for base `a` and decomposition
`n - 1 = 2^s·d`, stated from the claim's words (`a^d ≡ 1 (mod n)` or
`a^(2^r·d) ≡ n-1 (mod n)` for some `r < s`), for comparison with
`witness_test`. -/
def spec_strong_probable_prime (a n s d : ℕ) : Prop :=
  a ^ d % n = 1 ∨ ∃ r, r < s ∧ a ^ (2 ^ r * d) % n = n - 1

instance (a n s d : ℕ) : Decidable (spec_strong_probable_prime a n s d) := by
  unfold spec_strong_probable_prime
  exact inferInstance

/-- Constant random stream drawing 2 forever. -/
def draw_two : ℕ → ℕ := fun _ => 2

/-- Constant random stream drawing 3 forever. -/
def draw_three : ℕ → ℕ := fun _ => 3

/-- Constant random stream drawing 5 forever. -/
def draw_five : ℕ → ℕ := fun _ => 5

/-- Constant random stream drawing 43 forever. -/
def draw_fortythree : ℕ → ℕ := fun _ => 43

/-! ### Helper lemmas -/

/-- Validation that `floor_sqrt` is the usual integer square root. -/
theorem floor_sqrt_eq_sqrt : ∀ n, floor_sqrt n = Nat.sqrt n := by
  intro n
  have h1 : ∀ m, ((List.range m).filter (fun k => decide (k * k ≤ n))).length
      = min m (Nat.sqrt n + 1) := by
    intro m
    induction m with
    | zero => simp
    | succ m ih =>
      rw [List.range_succ, List.filter_append, List.length_append, ih]
      by_cases h : m * m ≤ n
      · have hms : m ≤ Nat.sqrt n := Nat.le_sqrt.mpr h
        simp [h]
        omega
      · have hsm : Nat.sqrt n < m := by
          by_contra hc
          push_neg at hc
          exact h (le_trans (Nat.mul_le_mul hc hc) (Nat.sqrt_le n))
        simp [h]
        omega
  unfold floor_sqrt
  rw [h1]
  have := Nat.sqrt_le_self n
  omega

/-- Correctness of the fueled binary modular exponentiation: with enough
fuel it computes `b ^ e % m`. -/
theorem powmod_aux_eq : ∀ (f e b m : ℕ), e < 2 ^ f → powmod_aux f b e m = b ^ e % m := by
  intro f
  induction f with
  | zero =>
    intro e b m he
    have : e = 0 := by simpa using Nat.lt_one_iff.mp (by simpa using he)
    subst this
    simp [powmod_aux]
  | succ f ih =>
    intro e b m he
    by_cases h0 : e = 0
    · subst h0; simp [powmod_aux]
    · have hpow : 2 ^ (f + 1) = 2 ^ f * 2 := pow_succ 2 f
      have h2 : e / 2 < 2 ^ f := by omega
      have hr := ih (e / 2) (b * b % m) m h2
      have hval : (b * b % m) ^ (e / 2) % m = b ^ (2 * (e / 2)) % m := by
        rw [← Nat.pow_mod, pow_mul, pow_two]
      simp only [powmod_aux, if_neg h0, hr, hval]
      by_cases hpar : e % 2 = 1
      · rw [if_pos hpar]
        have he2 : e = 2 * (e / 2) + 1 := by omega
        calc b % m * (b ^ (2 * (e / 2)) % m) % m
            = b * b ^ (2 * (e / 2)) % m := by rw [← Nat.mul_mod]
          _ = b ^ e % m := by rw [← pow_succ']; rw [← he2]
      · rw [if_neg hpar]
        have he2 : e = 2 * (e / 2) := by omega
        rw [← he2]

/-- Unconditional correctness of `mod_exp`: the wrapper always supplies
sufficient fuel. -/
theorem mod_exp_eq (b e m : ℕ) : mod_exp b e m = b ^ e % m := by
  have h1 : e < 2 ^ e := Nat.lt_two_pow e
  have h2 : (2 : ℕ) ^ e ≤ 2 ^ (e + 1) := Nat.pow_le_pow_right (by omega) (by omega)
  exact powmod_aux_eq (e + 1) e b m (by omega)

/-- Correctness of the decomposition loop: with fuel at least `d ≥ 1` the
result `(s, d')` satisfies `d'` odd and `2 ^ s * d' = d`. -/
theorem decompose_loop_spec : ∀ (f d : ℕ), 0 < d → d ≤ f →
    (decompose_loop f d).2 % 2 = 1 ∧ 2 ^ (decompose_loop f d).1 * (decompose_loop f d).2 = d := by
  intro f
  induction f with
  | zero => intro d hd hdf; omega
  | succ f ih =>
    intro d hd hdf
    by_cases hev : d % 2 = 0 ∧ d ≠ 0
    · have hd2 : 0 < d / 2 := by omega
      have hdf2 : d / 2 ≤ f := by omega
      have hrec := ih (d / 2) hd2 hdf2
      simp only [decompose_loop, if_pos hev]
      refine ⟨hrec.1, ?_⟩
      have : 2 ^ ((decompose_loop f (d / 2)).1 + 1) * (decompose_loop f (d / 2)).2
          = 2 * (2 ^ (decompose_loop f (d / 2)).1 * (decompose_loop f (d / 2)).2) := by ring
      rw [this, hrec.2]
      omega
    · simp only [decompose_loop, if_neg hev]
      constructor
      · omega
      · rw [pow_zero, one_mul]

/-! ### C5 — Decomposer round-trip -/

/-- C5: for every integer `n > 1`, the Decomposer returns a pair `(s, d)`
with `d` odd and `2 ^ s * d` exactly equal to `n - 1` (`s ≥ 0` holds by the
type).  Confirmed. -/
theorem claim_C5_decomposer_roundtrip (n : ℕ) (hn : 2 ≤ n) :
    (decompose_n_minus_1 n).2 % 2 = 1 ∧
      2 ^ (decompose_n_minus_1 n).1 * (decompose_n_minus_1 n).2 = n - 1 :=
  decompose_loop_spec (n - 1) (n - 1) (by omega) (le_refl _)

/-- Witness for C5 at the concrete input `n = 25` (the source's own test
case: `24 = 2 ^ 3 * 3`). -/
theorem claim_C5_witness :
    (decompose_n_minus_1 25).2 % 2 = 1 ∧
      2 ^ (decompose_n_minus_1 25).1 * (decompose_n_minus_1 25).2 = 25 - 1 :=
  claim_C5_decomposer_roundtrip 25 (by decide)

/-! ### C6 — when is s = 0 -/

/-- C6 counterexample: the claim says the Decomposer returns `s = 0` only
when `n = 2`, but at the concrete input `n = 4` it returns `s = 0` (the
decomposition of `3` is `2 ^ 0 * 3`) although `4 ≠ 2`. -/
theorem claim_C6_counterexample : (decompose_n_minus_1 4).1 = 0 ∧ (4 : ℕ) ≠ 2 := by
  decide

/-- C6 amended: for every `n > 1` the Decomposer returns `s = 0` exactly
when `n` is even (in particular at `n = 2`, but also at every even `n > 2`);
for every odd `n > 2` the returned `s` is nonzero. -/
theorem claim_C6_amended (n : ℕ) (hn : 2 ≤ n) :
    (decompose_n_minus_1 n).1 = 0 ↔ n % 2 = 0 := by
  have h : (decompose_n_minus_1 n).2 % 2 = 1 ∧
      2 ^ (decompose_n_minus_1 n).1 * (decompose_n_minus_1 n).2 = n - 1 :=
    decompose_loop_spec (n - 1) (n - 1) (by omega) (le_refl _)
  constructor
  · intro h0
    have heq := h.2
    rw [h0, pow_zero, one_mul] at heq
    have hodd := h.1
    omega
  · intro hev
    by_contra hs
    have hs1 : 0 < (decompose_n_minus_1 n).1 := Nat.pos_of_ne_zero hs
    have hdvd : 2 ∣ 2 ^ (decompose_n_minus_1 n).1 * (decompose_n_minus_1 n).2 :=
      dvd_mul_of_dvd_left (dvd_pow_self 2 (by omega)) _
    have heq := h.2
    rw [heq] at hdvd
    omega

/-- Witness for the amended C6 at the concrete odd input `n = 9`
(`8 = 2 ^ 3 * 1`, so `s = 3 ≠ 0`). -/
theorem claim_C6_amended_witness : (decompose_n_minus_1 9).1 = 0 ↔ 9 % 2 = 0 :=
  claim_C6_amended 9 (by decide)

/-! ### C2 — auto dispatch for non-(Mersenne-with-prime-exponent) inputs -/

/-- C2: the claim says that whenever the Mersenne-with-prime-exponent
condition fails, `test(n, auto)` returns the BPSW result and raises no
error.  At the concrete in-scope input `n = 15` (`15 + 1 = 2 ^ 4` has one
set bit but the exponent `4` is composite) the code instead leaves
`algorithm = "auto"` in place, falls through every dispatch branch and
raises `ValueError("Unknown algorithm: auto")`, while the BPSW tester
itself would return `False`.  This contradicts the selector's own
contract (its docstring lists `"auto"` as a valid algorithm and promises a
boolean result, and the spec §4.6 says non-Mersenne-recognized inputs
dispatch to BPSW), so the code, not the claim, is wrong. -/
theorem claim_C2_failing_input :
    is_prime_cpu draw_two "auto" ⟨none, none⟩ 15 =
        Except.error ("Unknown algorithm: auto") ∧
      bpsw_test draw_two 15 = false := by
  exact ⟨rfl, by decide⟩

/-! ### C3 — the Lucas ladder and its truncating division -/

/-- C3: the claim says the ladder computes `U_{n+1} mod n` (with `P = 1`,
`Q = (1 - D) / 4`) and reports prime iff `U_{n+1} ≡ 0 (mod n)`, the
halving being a modular inverse of 2.  At the concrete input `n = 13` the
search accepts `D = 5` (Jacobi `(5 | 13) = -1`, so `Q = -1`), the true
Lucas sequence has `U_14 = 377 ≡ 0 (mod 13)`, yet the code's ladder —
whose set-bit step uses the truncating floor division `// 2` — ends with
`U ≡ 2 (mod 13)` and reports composite for the prime 13.  The repository's
own test (`TestLucasPrimality.test_small_primes`) asserts
`lucas.test(13) is True`, so the code, not the claim, is wrong. -/
theorem claim_C3_failing_input :
    find_D 13 = some 5 ∧ jacobi_symbol 5 13 = -1 ∧
      ((nat_bits 14).foldl (lucas_step 13 5 1 (-1)) (0, 2, 1)).1 = 2 ∧
      lucas_test 13 = false ∧ (lucas_U 1 (-1) 14).fmod 13 = 0 := by
  decide

/-! ### C4 — single-witness Miller-Rabin characterization -/

/-- Correctness of the squaring loop of `_witness_test`: starting from a
reduced `x` that is neither `1` nor `n - 1`, the loop accepts exactly when
some further squaring `x ^ 2 ^ i` (`1 ≤ i ≤ k`) is `n - 1` modulo `n`. -/
theorem witness_loop_iff (n : ℕ) (hn : 2 < n) :
    ∀ (k x : ℕ), x < n → x ≠ 1 → x ≠ n - 1 →
      (witness_loop n x k = true ↔ ∃ i, 1 ≤ i ∧ i ≤ k ∧ x ^ 2 ^ i % n = n - 1) := by
  intro k
  induction k with
  | zero =>
    intro x _ _ _
    simp only [witness_loop]
    constructor
    · intro h; exact absurd h (by simp)
    · rintro ⟨i, hi1, hi0, _⟩; omega
  | succ k ih =>
    intro x hx hx1 hxn
    have hy : mod_exp x 2 n = x ^ 2 % n := mod_exp_eq x 2 n
    simp only [witness_loop]
    by_cases h1 : mod_exp x 2 n = n - 1
    · rw [if_pos h1]
      constructor
      · intro _
        refine ⟨1, le_refl 1, by omega, ?_⟩
        rw [pow_one, ← hy]
        exact h1
      · intro _; rfl
    · rw [if_neg h1]
      by_cases h2 : mod_exp x 2 n = 1
      · rw [if_pos h2]
        constructor
        · intro h; exact absurd h (by simp)
        · rintro ⟨i, hi1, hik, hieq⟩
          have hx2 : x ^ 2 % n = 1 := by rw [← hy]; exact h2
          have hione : x ^ 2 ^ i % n = 1 := by
            have h2i : 2 ^ i = 2 * 2 ^ (i - 1) := by
              have hi' : i - 1 + 1 = i := by omega
              conv_lhs => rw [← hi', pow_succ']
            rw [h2i, pow_mul, Nat.pow_mod, hx2, one_pow]
            exact Nat.mod_eq_of_lt (by omega)
          rw [hione] at hieq
          omega
      · rw [if_neg h2]
        have hyn : mod_exp x 2 n < n := by rw [hy]; exact Nat.mod_lt _ (by omega)
        rw [ih (mod_exp x 2 n) hyn h2 h1]
        have hshift : ∀ j, (mod_exp x 2 n) ^ 2 ^ j % n = x ^ 2 ^ (j + 1) % n := by
          intro j
          rw [hy, ← Nat.pow_mod, ← pow_mul, pow_succ']
        constructor
        · rintro ⟨i, hi1, hik, hieq⟩
          refine ⟨i + 1, by omega, by omega, ?_⟩
          rw [← hshift i]; exact hieq
        · rintro ⟨i, hi1, hik, hieq⟩
          have hi2 : 2 ≤ i := by
            by_contra hc
            have hone : i = 1 := by omega
            subst hone
            apply h1
            rw [hy]
            simpa using hieq
          refine ⟨i - 1, by omega, by omega, ?_⟩
          rw [hshift (i - 1)]
          have hi' : i - 1 + 1 = i := by omega
          rw [hi']
          exact hieq

/-- C4: for every odd `n > 2` with `n - 1 = 2 ^ s * d` (`d` odd) and every
base `1 < a < n - 1`, `_witness_test` reports "does not prove
compositeness" exactly when `n` is a strong probable prime to base `a`
(`a ^ d ≡ 1` or `a ^ (2 ^ r · d) ≡ n - 1 (mod n)` for some `r < s`); and
when the witness does prove compositeness, the surrounding witness loop of
`MillerRabin.test` returns `False` (composite) whatever the other
witnesses are.  Confirmed. -/
theorem claim_C4_witness_characterization (a n s d : ℕ)
    (hn : 2 < n) (hodd : n % 2 = 1) (hd : d % 2 = 1)
    (hdec : n - 1 = 2 ^ s * d) (_ha1 : 1 < a) (_ha2 : a < n - 1) :
    (witness_test a n s d = true ↔ spec_strong_probable_prime a n s d) ∧
      (witness_test a n s d = false →
        ∀ ws : List ℕ, a ∈ ws → mr_witness_pass ws n s d = false) := by
  have hs1 : 1 ≤ s := by
    by_contra hc
    have hs0 : s = 0 := by omega
    rw [hs0, pow_zero, one_mul] at hdec
    omega
  constructor
  · have hxeq : mod_exp a d n = a ^ d % n := mod_exp_eq a d n
    unfold witness_test spec_strong_probable_prime
    by_cases h1 : mod_exp a d n = 1
    · rw [if_pos (Or.inl h1)]
      constructor
      · intro _
        left
        rw [← hxeq]; exact h1
      · intro _; rfl
    · by_cases h2 : mod_exp a d n = n - 1
      · rw [if_pos (Or.inr h2)]
        constructor
        · intro _
          right
          exact ⟨0, by omega, by rw [pow_zero, one_mul, ← hxeq]; exact h2⟩
        · intro _; rfl
      · rw [if_neg (not_or.mpr ⟨h1, h2⟩)]
        have hxlt : mod_exp a d n < n := by
          rw [hxeq]; exact Nat.mod_lt _ (by omega)
        rw [witness_loop_iff n hn (s - 1) (mod_exp a d n) hxlt h1 h2]
        have hconv : ∀ i, (mod_exp a d n) ^ 2 ^ i % n = a ^ (2 ^ i * d) % n := by
          intro i
          rw [hxeq, ← Nat.pow_mod, ← pow_mul, mul_comm d (2 ^ i)]
        constructor
        · rintro ⟨i, hi1, his, hieq⟩
          right
          exact ⟨i, by omega, by rw [← hconv i]; exact hieq⟩
        · rintro (h | ⟨r, hrs, hreq⟩)
          · exact absurd (by rw [hxeq]; exact h) h1
          · have hr1 : 1 ≤ r := by
              by_contra hc
              have hr0 : r = 0 := by omega
              rw [hr0, pow_zero, one_mul] at hreq
              exact h2 (by rw [hxeq]; exact hreq)
            exact ⟨r, hr1, by omega, by rw [hconv r]; exact hreq⟩
  · intro hfalse ws hmem
    have hnot : ¬ (mr_witness_pass ws n s d = true) := by
      unfold mr_witness_pass
      rw [List.all_eq_true]
      intro hall
      have hthis := hall a hmem
      simp only [hfalse] at hthis
      exact absurd hthis (by simp)
    exact Bool.eq_false_iff.mpr hnot

/-- Witness for C4 at the concrete input `a = 2`, `n = 9` (`8 = 2 ^ 3 · 1`):
base 2 proves 9 composite and 9 is not a strong probable prime to base 2,
so both sides of the equivalence are false. -/
theorem claim_C4_witness :
    witness_test 2 9 3 1 = true ↔ spec_strong_probable_prime 2 9 3 1 :=
  (claim_C4_witness_characterization 2 9 3 1 (by decide) (by decide) (by decide)
    (by decide) (by decide) (by decide)).1

/-! ### C10 — Miller-Rabin below 2^64 ignores its options -/

/-- Helper for C10: below `2 ^ 64` the Miller-Rabin tester is exactly the
small-integer primality check. -/
theorem miller_rabin_small_eq (rounds : ℕ) (use_det : Bool) (w : ℕ → ℕ)
    (n : ℤ) (h0 : 0 ≤ n) (h64 : n < 2 ^ 64) :
    miller_rabin_test rounds use_det w n = is_prime_small n.toNat := by
  obtain ⟨m, rfl⟩ := Int.eq_ofNat_of_zero_le h0
  rw [Int.toNat_natCast]
  unfold miller_rabin_test
  by_cases hc1 : (m : ℤ) ≤ 1
  · rw [if_pos hc1]
    have hm : m ≤ 1 := by exact_mod_cast hc1
    unfold is_prime_small
    rw [if_pos (show m < 2 by omega)]
  · rw [if_neg hc1]
    by_cases hc2 : (m : ℤ) ≤ 3
    · rw [if_pos hc2]
      have hm1 : ¬ ((m : ℤ) ≤ 1) := hc1
      have hm2 : m ≤ 3 := by exact_mod_cast hc2
      have hm23 : m = 2 ∨ m = 3 := by omega
      rcases hm23 with h | h <;> subst h <;> decide
    · rw [if_neg hc2]
      by_cases hc3 : (m : ℤ).fmod 2 = 0
      · rw [if_pos hc3]
        rw [Int.fmod_eq_emod _ (by omega)] at hc3
        have hm4 : 4 ≤ m := by omega
        have hme : m % 2 = 0 := by omega
        unfold is_prime_small
        rw [if_neg (show ¬ m < 2 by omega), if_neg (show ¬ m = 2 by omega), if_pos hme]
      · rw [if_neg hc3, if_pos h64, Int.toNat_natCast]

/-- C10: for every integer `0 ≤ n < 2 ^ 64`, the Miller-Rabin tester's
result equals the small-integer primality check's answer and is therefore
independent of the `rounds` parameter, the `use_deterministic` flag, and
the random stream.  Confirmed. -/
theorem claim_C10_small_range_independence (rounds : ℕ) (use_det : Bool) (w : ℕ → ℕ)
    (n : ℤ) (h0 : 0 ≤ n) (h64 : n < 2 ^ 64) :
    miller_rabin_test rounds use_det w n = is_prime_small n.toNat ∧
      ∀ (rounds' : ℕ) (use_det' : Bool) (w' : ℕ → ℕ),
        miller_rabin_test rounds use_det w n = miller_rabin_test rounds' use_det' w' n := by
  refine ⟨miller_rabin_small_eq rounds use_det w n h0 h64, ?_⟩
  intro rounds' use_det' w'
  rw [miller_rabin_small_eq rounds use_det w n h0 h64,
    miller_rabin_small_eq rounds' use_det' w' n h0 h64]

/-- Witness for C10 at the concrete input `n = 97` with default options. -/
theorem claim_C10_witness :
    miller_rabin_test 20 false draw_two 97 = is_prime_small (97 : ℤ).toNat :=
  (claim_C10_small_range_independence 20 false draw_two 97 (by decide) (by decide)).1

/-! ### C7 — purity of the testers -/

/-- Helper for C7: Miller-Rabin does not consult the random stream below
`2 ^ 64`, nor in deterministic mode below the threshold. -/
theorem miller_rabin_stream_indep (rounds : ℕ) (use_det : Bool) (w₁ w₂ : ℕ → ℕ)
    (n : ℤ) (h : n < 2 ^ 64 ∨ (use_det = true ∧ n < deterministic_threshold)) :
    miller_rabin_test rounds use_det w₁ n = miller_rabin_test rounds use_det w₂ n := by
  unfold miller_rabin_test
  by_cases h1 : n ≤ 1
  · simp only [if_pos h1]
  · simp only [if_neg h1]
    by_cases h2 : n ≤ 3
    · simp only [if_pos h2]
    · simp only [if_neg h2]
      by_cases h3 : n.fmod 2 = 0
      · simp only [if_pos h3]
      · simp only [if_neg h3]
        by_cases h4 : n < 2 ^ 64
        · simp only [if_pos h4]
        · simp only [if_neg h4]
          rcases h with h | hdet
          · exact absurd h h4
          · simp only [if_pos hdet]

/-- C7 counterexample: the claim says every tester is a pure function of
its inputs with no dependence on the process-wide random source.  But for
`n = 3317044064679887385961981` (a composite that is a strong pseudoprime
to every base from 2 through 41) the default Miller-Rabin tester draws its
witnesses from the global `random` state, so two invocations that happen
to draw 2 versus 43 return different results. -/
theorem claim_C7_counterexample :
    miller_rabin_test 1 false draw_two 3317044064679887385961981 = true ∧
      miller_rabin_test 1 false draw_fortythree 3317044064679887385961981 = false := by
  constructor
  · decide
  · decide

/-- C7 amended: Lucas, BPSW and Lucas-Lehmer take no random input at all
in this embedding except through Miller-Rabin, and Miller-Rabin itself is
independent of the random stream below `2 ^ 64` and in deterministic mode
below the threshold — which makes BPSW stream-independent below the
threshold; but Miller-Rabin with random witnesses (`n ≥ 2 ^ 64` without
the deterministic branch) reads the shared random source, as the
counterexample shows. -/
theorem claim_C7_amended :
    (∀ (rounds : ℕ) (use_det : Bool) (w₁ w₂ : ℕ → ℕ) (n : ℤ),
        n < 2 ^ 64 ∨ (use_det = true ∧ n < deterministic_threshold) →
        miller_rabin_test rounds use_det w₁ n = miller_rabin_test rounds use_det w₂ n) ∧
      (∀ (w₁ w₂ : ℕ → ℕ) (n : ℤ), n < deterministic_threshold →
        bpsw_test w₁ n = bpsw_test w₂ n) := by
  constructor
  · exact miller_rabin_stream_indep
  · intro w₁ w₂ n hT
    unfold bpsw_test
    by_cases h1 : n ≤ 1
    · simp only [if_pos h1]
    · simp only [if_neg h1]
      by_cases h2 : n = 2
      · simp only [if_pos h2]
      · simp only [if_neg h2]
        by_cases h3 : n.fmod 2 = 0
        · simp only [if_pos h3]
        · simp only [if_neg h3]
          rw [miller_rabin_stream_indep 1 true w₁ w₂ n (Or.inr ⟨rfl, hT⟩)]

/-- Witness for the amended C7 at `n = 97` with two different streams. -/
theorem claim_C7_amended_witness :
    miller_rabin_test 20 false draw_two 97 = miller_rabin_test 20 false draw_five 97 :=
  claim_C7_amended.1 20 false draw_two draw_five 97 (Or.inl (by decide))

/-! ### C9 — the random probable-prime generator -/

/-- Helper for C9: any value the generator loop returns is odd, has bit
length exactly `bits`, and passes the generator's primality check. -/
theorem generate_loop_spec (w : ℕ → ℕ) (bits : ℕ) (hb : 2 ≤ bits)
    (hw : ∀ i, w i < 2 ^ (bits - 1)) :
    ∀ (fuel i n : ℕ), generate_loop w bits fuel i = some n →
      n % 2 = 1 ∧ 2 ^ (bits - 1) ≤ n ∧ n < 2 ^ bits ∧ is_probably_prime n 5 = true := by
  have hpow : 2 ^ bits = 2 ^ (bits - 1) + 2 ^ (bits - 1) := by
    have hb1 : bits - 1 + 1 = bits := by omega
    calc 2 ^ bits = 2 ^ (bits - 1 + 1) := by rw [hb1]
      _ = 2 ^ (bits - 1) * 2 := pow_succ 2 (bits - 1)
      _ = 2 ^ (bits - 1) + 2 ^ (bits - 1) := by ring
  intro fuel
  induction fuel with
  | zero => intro i n h; simp [generate_loop] at h
  | succ fuel ih =>
    intro i n h
    simp only [generate_loop] at h
    by_cases hev : (2 ^ (bits - 1) + w i) % 2 = 0
    · rw [if_pos hev] at h
      by_cases hpp : is_probably_prime (2 ^ (bits - 1) + w i + 1) 5 = true
      · rw [if_pos hpp] at h
        have hwi := hw i
        have hn : 2 ^ (bits - 1) + w i + 1 = n := by
          injection h
        refine ⟨by omega, by omega, by omega, ?_⟩
        rw [← hn]
        exact hpp
      · rw [if_neg hpp] at h
        exact ih (i + 1) n h
    · rw [if_neg hev] at h
      by_cases hpp : is_probably_prime (2 ^ (bits - 1) + w i) 5 = true
      · rw [if_pos hpp] at h
        have hwi := hw i
        have hn : 2 ^ (bits - 1) + w i = n := by
          injection h
        refine ⟨by omega, by omega, by omega, ?_⟩
        rw [← hn]
        exact hpp
      · rw [if_neg hpp] at h
        exact ih (i + 1) n h

/-- C9: for every requested bit length `bits ≥ 2` and every random-draw
stream (each draw being a `bits - 1`-bit value, as `getrandbits`
guarantees) that makes the loop terminate, the generator returns an odd
integer with bit length exactly `bits` (i.e. in `[2^(bits-1), 2^bits)`)
that passes the generator's probabilistic primality check.  Confirmed. -/
theorem claim_C9_generator (w : ℕ → ℕ) (bits fuel n : ℕ) (hb : 2 ≤ bits)
    (hw : ∀ i, w i < 2 ^ (bits - 1))
    (h : generate_random_probable_prime w bits fuel = some n) :
    n % 2 = 1 ∧ 2 ^ (bits - 1) ≤ n ∧ n < 2 ^ bits ∧ is_probably_prime n 5 = true :=
  generate_loop_spec w bits hb hw fuel 0 n h

/-- Witness for C9: with `bits = 4` and constant draws of 3 the generator
returns 11, which is odd, 4 bits long, and passes the check. -/
theorem claim_C9_witness :
    11 % 2 = 1 ∧ 2 ^ (4 - 1) ≤ 11 ∧ 11 < 2 ^ 4 ∧ is_probably_prime 11 5 = true :=
  claim_C9_generator draw_three 4 1 11 (by decide) (fun _ => by norm_num [draw_three]) (by decide)

/-! ### C8 — which calls raise -/

/-- C8 counterexample: the claim says an explicit `lucas-lehmer` request on
an obviously Mersenne-form input such as `n = 127` does not require `p` and
does not raise.  At that concrete input the code raises: the Mersenne-form
detection runs only in `auto` mode, and the explicit `lucas-lehmer` branch
unconditionally raises `ValueError` when `p` is absent. -/
theorem claim_C8_counterexample :
    is_prime_cpu draw_two "lucas-lehmer" ⟨none, none⟩ 127 =
      Except.error ("Lucas-Lehmer requires exponent p for testing 2^p - 1") := by
  rfl

/-- C8 amended: `test` raises `InvalidArgument` iff the algorithm name is
not one of `auto`, `miller-rabin`, `lucas-lehmer`, `bpsw`; or `lucas-lehmer`
is requested explicitly without option `p` (whatever the input's form, so
also at `n = 127`); or the algorithm is `auto` and `n` is Mersenne-form
(`n > 3`, one set bit in `n + 1`) with an exponent that fails the
small-integer primality check (the dangling-`auto` fall-through). -/
theorem claim_C8_amended (w : ℕ → ℕ) (alg : String) (kw : Kw) (n : ℤ) :
    is_error (is_prime_cpu w alg kw n) = true ↔
      (¬ (alg = "auto" ∨ alg = "miller-rabin" ∨ alg = "lucas-lehmer" ∨ alg = "bpsw")
        ∨ (alg = "lucas-lehmer" ∧ kw.p = none)
        ∨ (alg = "auto" ∧ 3 < n ∧ bit_count (n + 1).toNat = 1 ∧
            is_prime_small (bit_length (n + 1).toNat - 1) = false)) := by
  have sAU_MR : ¬ (("auto" : String) = "miller-rabin") := by decide
  have sAU_LL : ¬ (("auto" : String) = "lucas-lehmer") := by decide
  have sAU_BP : ¬ (("auto" : String) = "bpsw") := by decide
  have sMR_AU : ¬ (("miller-rabin" : String) = "auto") := by decide
  have sMR_LL : ¬ (("miller-rabin" : String) = "lucas-lehmer") := by decide
  have sLL_AU : ¬ (("lucas-lehmer" : String) = "auto") := by decide
  have sLL_MR : ¬ (("lucas-lehmer" : String) = "miller-rabin") := by decide
  have sBP_AU : ¬ (("bpsw" : String) = "auto") := by decide
  have sBP_MR : ¬ (("bpsw" : String) = "miller-rabin") := by decide
  have sBP_LL : ¬ (("bpsw" : String) = "lucas-lehmer") := by decide
  by_cases ha : alg = "auto"
  · subst ha
    unfold is_prime_cpu auto_resolve
    simp only [if_pos rfl]
    by_cases hm : 3 < n ∧ bit_count (n + 1).toNat = 1
    · simp only [if_pos hm]
      by_cases hp : is_prime_small (bit_length (n + 1).toNat - 1) = true
      · simp only [if_pos hp]
        simp [is_error, hp, hm.1, hm.2, sAU_LL, sLL_MR]
      · simp only [if_neg hp]
        have hpf : is_prime_small (bit_length (n + 1).toNat - 1) = false :=
          Bool.eq_false_iff.mpr hp
        simp [is_error, hpf, hm.1, hm.2, sAU_MR, sAU_LL, sAU_BP]
    · simp only [if_neg hm]
      simp [is_error, sAU_LL, sBP_MR, sBP_LL]
      tauto
  · by_cases hmr : alg = "miller-rabin"
    · subst hmr
      unfold is_prime_cpu auto_resolve
      simp only [if_neg sMR_AU]
      simp [is_error, sMR_LL, sMR_AU]
    · by_cases hll : alg = "lucas-lehmer"
      · subst hll
        unfold is_prime_cpu auto_resolve
        simp only [if_neg sLL_AU]
        rcases hkp : kw.p with _ | p
        · simp [is_error, sLL_MR, sLL_AU, hkp]
        · simp [is_error, sLL_MR, sLL_AU, hkp]
      · by_cases hbp : alg = "bpsw"
        · subst hbp
          unfold is_prime_cpu auto_resolve
          simp only [if_neg sBP_AU]
          simp [is_error, sBP_MR, sBP_LL, sBP_AU]
        · unfold is_prime_cpu auto_resolve
          simp only [if_neg ha]
          simp [is_error, ha, hmr, hll, hbp]

end PrimeNumber
